import Mathlib

/-!
Shallow embedding of the string-processing core of `claude-mailer`
(`src/index.ts`).  Strings are modelled as `List Char` (JavaScript strings
are sequences of UTF-16 code units; every input considered here stays in
the code-unit-per-char regime).  Each definition is translated from the
source function named in its doc comment.
-/

namespace ClaudeMailer

/-- ASCII hex digit as accepted by the regex class `[0-9A-F]` with the `i`
flag (so `a`-`f` as well), used in `decodeQuotedPrintable`. -/
def isHexCh (c : Char) : Bool :=
  c.isDigit || ('A' ≤ c && c ≤ 'F') || ('a' ≤ c && c ≤ 'f')

/-- Numeric value of a hex digit, as `parseInt(hex, 16)` computes it per
digit. -/
def hexVal (c : Char) : Nat :=
  if c.isDigit then c.toNat - 48
  else if 'A' ≤ c && c ≤ 'F' then c.toNat - 55
  else if 'a' ≤ c && c ≤ 'f' then c.toNat - 87
  else 0

/-- ASCII letter as matched by the regex class `[a-z]` with the `i` flag
(used by `isHtml`). -/
def isAsciiLetter (c : Char) : Bool :=
  ('a' ≤ c && c ≤ 'z') || ('A' ≤ c && c ≤ 'Z')

/-- ASCII whitespace trimmed by JavaScript `String.prototype.trim`
(restricted to the ASCII range, which is all the sources here contain). -/
def isJsSpace (c : Char) : Bool :=
  c = ' ' || c = '\t' || c = '\n' || c = '\r' || c = '\x0b' || c = '\x0c'

/-- JavaScript `s.trim()`: drop leading and trailing whitespace. -/
def trimJs (s : List Char) : List Char :=
  ((s.dropWhile isJsSpace).reverse.dropWhile isJsSpace).reverse

/-- JavaScript `s.replace(/p/g, r)` for a single-character pattern `p`:
every occurrence of the character is replaced by `r`. -/
def replaceChar (p : Char) (r : List Char) : List Char → List Char
  | [] => []
  | c :: t => (if c = p then r else [c]) ++ replaceChar p r t

/-- `escapeHtml` (src/index.ts:176-182): four sequential global replaces,
ampersand first. -/
def escapeHtml (s : List Char) : List Char :=
  replaceChar '"' ("&quot;".toList)
    (replaceChar '>' ("&gt;".toList)
      (replaceChar '<' ("&lt;".toList)
        (replaceChar '&' ("&amp;".toList) s)))

/-- One position of the regex `/<[a-z][\s\S]*>/i`: an opening bracket, an
ASCII letter, then a closing angle bracket anywhere later. -/
def tagAt : List Char → Bool
  | '<' :: c2 :: rest2 => isAsciiLetter c2 && rest2.contains '>'
  | _ => false

/-- `isHtml` (src/index.ts:184-186): the regex `/<[a-z][\s\S]*>/i` tests
true iff the pattern matches at some position of the string. -/
def isHtml : List Char → Bool
  | [] => false
  | c :: rest => tagAt (c :: rest) || isHtml rest

/-- `textToHtml` (src/index.ts:188-190): escape, then replace every `\n`
with `<br>\n`. -/
def textToHtml (s : List Char) : List Char :=
  replaceChar '\n' ("<br>\n".toList) (escapeHtml s)

/-- First pass of `decodeQuotedPrintable` (src/index.ts:243):
`.replace(/=\r?\n/g, "")`, removing soft line breaks.  On a failed match
the scan advances one position, which the catch-all case mirrors. -/
def removeSoftBreaks : List Char → List Char
  | '=' :: '\n' :: rest => removeSoftBreaks rest
  | '=' :: '\r' :: '\n' :: rest => removeSoftBreaks rest
  | c :: rest => c :: removeSoftBreaks rest
  | [] => []

/-- Lookahead for the second pass: do the next two characters form the
`([0-9A-F]{2})` group (with the `i` flag)? -/
def hexEscapeAt : List Char → Bool
  | c2 :: c3 :: _ => isHexCh c2 && isHexCh c3
  | _ => false

/-- Second pass of `decodeQuotedPrintable` (src/index.ts:244):
`.replace(/=([0-9A-F]{2})/gi, ...)`, turning each hex escape into
`String.fromCharCode(parseInt(hex, 16))`. -/
def hexDecode : List Char → List Char
  | [] => []
  | c :: rest =>
    if c = '=' && hexEscapeAt rest then
      match rest with
      | c2 :: c3 :: r => Char.ofNat (16 * hexVal c2 + hexVal c3) :: hexDecode r
      | _ => []
    else c :: hexDecode rest

/-- `decodeQuotedPrintable` (src/index.ts:241-245): soft-break removal
followed by hex-escape substitution. -/
def decodeQuotedPrintable (s : List Char) : List Char :=
  hexDecode (removeSoftBreaks s)

/-- Removal of the `<br>` tags inserted by `textToHtml` (the inverse
direction of the spec's round-trip statement). -/
def stripBr : List Char → List Char
  | '<' :: 'b' :: 'r' :: '>' :: rest => stripBr rest
  | c :: rest => c :: stripBr rest
  | [] => []

/-- Character-by-character description of `escapeHtml`, written from the
spec's wording ("escapes the HTML metacharacters, ampersand first so that
no character is double-escaped"): each character maps independently to its
escape. -/
def escCharSpec (c : Char) : List Char :=
  if c = '&' then "&amp;".toList
  else if c = '<' then "&lt;".toList
  else if c = '>' then "&gt;".toList
  else if c = '"' then "&quot;".toList
  else [c]

/-- Spec-side character-wise escape of a whole string. -/
def htmlEscapeSpec : List Char → List Char
  | [] => []
  | c :: rest => escCharSpec c ++ htmlEscapeSpec rest

/-- Spec-side character-wise description of `textToHtml`: every line break
becomes the line-break tag followed by the original line ending, every
metacharacter its escape. -/
def textToHtmlSpec : List Char → List Char
  | [] => []
  | c :: rest =>
    (if c = '\n' then "<br>\n".toList else escCharSpec c) ++ textToHtmlSpec rest

/-- Prepend a character to the first piece of a split result (the
scanning step of a split that found no separator at this position). -/
def consHead (c : Char) : List (List Char) → List (List Char)
  | [] => [[c]]
  | p :: ps => (c :: p) :: ps

/-- JavaScript `s.split(/\r?\n\r?\n/)` (used at src/index.ts:293 and 311):
split at every blank-line boundary, where the separator is a leftmost,
greedy match of the regex. -/
def splitBlank : List Char → List (List Char)
  | '\n' :: '\n' :: rest => [] :: splitBlank rest
  | '\n' :: '\r' :: '\n' :: rest => [] :: splitBlank rest
  | '\r' :: '\n' :: '\n' :: rest => [] :: splitBlank rest
  | '\r' :: '\n' :: '\r' :: '\n' :: rest => [] :: splitBlank rest
  | c :: rest => consHead c (splitBlank rest)
  | [] => [[]]

/-- `headers` (src/index.ts:294): the first blank-line-separated block. -/
def headersOf (s : List Char) : List Char :=
  (splitBlank s).headD []

/-- `rawBody` (src/index.ts:295): the remaining blocks rejoined with the
fixed separator `"\n\n"`. -/
def rawBodyOf (s : List Char) : List Char :=
  List.intercalate ['\n', '\n'] ((splitBlank s).drop 1)

/-- A part's content (src/index.ts:311 and 315):
`part.split(/\r?\n\r?\n/).slice(1).join("\n\n")`. -/
def partContent (part : List Char) : List Char :=
  List.intercalate ['\n', '\n'] ((splitBlank part).drop 1)

/-- JavaScript `hay.includes(needle)`. -/
def containsStr (needle : List Char) : List Char → Bool
  | [] => needle.isEmpty
  | c :: rest => needle.isPrefixOf (c :: rest) || containsStr needle rest

/-- Fuel-indexed worker for splitting on a literal separator string; the
fuel is the length of the string, which one unit per consumed character
cannot exhaust. -/
def splitOnStrGo (sep : List Char) : Nat → List Char → List (List Char)
  | _, [] => [[]]
  | 0, s => [s]
  | Nat.succ n, c :: rest =>
    if sep.isPrefixOf (c :: rest) then
      [] :: splitOnStrGo sep n (rest.drop (sep.length - 1))
    else consHead c (splitOnStrGo sep n rest)

/-- `rawBody.split(new RegExp(`--${escapedBoundary}`))` (src/index.ts:304-305):
because every regex metacharacter of the boundary is backslash-escaped
first, this is a split on the literal string `"--" ++ boundary`. -/
def splitOnStr (sep s : List Char) : List (List Char) :=
  splitOnStrGo sep s.length s

/-- Case-insensitive prefix test: `pat` (given lowercase) matches the head
of the second argument up to ASCII case. -/
def ciStartsWith : List Char → List Char → Bool
  | [], _ => true
  | _ :: _, [] => false
  | p :: ps, c :: cs => (c.toLower == p) && ciStartsWith ps cs

/-- The literal part of the boundary regex `/boundary="?([^"\r\n]+)"?/i`. -/
def boundaryTag : List Char := "boundary=".toList

/-- The capture group `([^"\r\n]+)`: greedy run of characters other than
a double quote, carriage return or line feed. -/
def captureToken (r : List Char) : List Char :=
  r.takeWhile (fun c => !(c == '"' || c == '\r' || c == '\n'))

/-- Matching the optional quote plus capture group at a position just
after `boundary=`; `none` when the group would be empty (the regex then
fails at this position, quote skipped or not). -/
def boundaryCapture (r : List Char) : Option (List Char) :=
  let r2 := if r.head? == some '"' then r.tail else r
  let cap := captureToken r2
  if cap.isEmpty then none else some cap

/-- `headers.match(/boundary="?([^"\r\n]+)"?/i)` (src/index.ts:301): the
capture of the leftmost match, if any. -/
def findBoundary : List Char → Option (List Char)
  | [] => none
  | c :: rest =>
    if ciStartsWith boundaryTag (c :: rest) then
      match boundaryCapture ((c :: rest).drop boundaryTag.length) with
      | some cap => some cap
      | none => findBoundary rest
    else findBoundary rest

/-- Needle of the plain-part test (src/index.ts:310). -/
def ctPlain : List Char := "Content-Type: text/plain".toList

/-- Needle of the HTML-part test (src/index.ts:314). -/
def ctHtml : List Char := "Content-Type: text/html".toList

/-- One iteration of the `for (const part of parts)` loop
(src/index.ts:309-318): the accumulator is the pair
`(plainBody, htmlBody)` of mutable variables. -/
def partStep (acc : List Char × List Char) (part : List Char) :
    List Char × List Char :=
  if containsStr ctPlain part then
    (decodeQuotedPrintable (partContent part), acc.2)
  else if containsStr ctHtml part then
    (acc.1, decodeQuotedPrintable (partContent part))
  else acc

/-- Body decomposition of `fetchMessageById` (src/index.ts:293-335),
from the raw message source to the pair
`(plainBody.trim(), htmlBody.trim() || undefined)`. -/
def decompose (s : List Char) : List Char × Option (List Char) :=
  match findBoundary (headersOf s) with
  | some b =>
    let parts := splitOnStr ('-' :: '-' :: b) (rawBodyOf s)
    let ph := parts.foldl partStep ([], [])
    (trimJs ph.1, if (trimJs ph.2).isEmpty then none else some (trimJs ph.2))
  | none => (trimJs (decodeQuotedPrintable (rawBodyOf s)), none)

/-- The `SendOptions` fields that matter to body and threading
(src/index.ts:141-148); an `Option` is `none` for a field that is
`undefined`. -/
structure SendOptions where
  body : List Char := []
  inReplyTo : Option (List Char) := none
  references : Option (List Char) := none

/-- JavaScript truthiness of a `string | undefined` value: `undefined`
and the empty string are falsy. -/
def truthy : Option (List Char) → Bool
  | none => false
  | some s => !s.isEmpty

/-- `bodyHtml` (src/index.ts:376-380): HTML input passes through, plain
text is escaped, line-break converted and wrapped in a `div`. -/
def bodyHtmlOf (body : List Char) : List Char :=
  if isHtml body then body
  else "<div>".toList ++ textToHtml body ++ "</div>".toList

/-- The threading headers that `sendEmail` places on the nodemailer mail
options; `none` models a header that is never set. -/
structure MailOptions where
  inReplyTo : Option (List Char)
  references : Option (List Char)
deriving DecidableEq

/-- Threading-header assembly of `sendEmail` (src/index.ts:398-405):
headers are set only under `if (options.inReplyTo)`, and the References
value is `options.references ? `${options.references} ${options.inReplyTo}`
: options.inReplyTo`. -/
def mailOptionsOf (o : SendOptions) : MailOptions :=
  if truthy o.inReplyTo then
    { inReplyTo := o.inReplyTo
      references :=
        if truthy o.references then
          some ((o.references.getD []) ++ ' ' :: (o.inReplyTo.getD []))
        else o.inReplyTo }
  else { inReplyTo := none, references := none }

/-- `messageId.replace(/^<|>$/g, "")` (src/index.ts:279): strip one
leading `<` and one trailing `>`. -/
def stripAngles (s : List Char) : List Char :=
  let s1 := if s.head? == some '<' then s.tail else s
  if s1.getLast? == some '>' then s1.dropLast else s1

/-- Abstraction of the IMAP transport seen by `fetchMessageById`: whether
connecting succeeds, the UID list a Message-ID search returns, and the
raw source fetched for a UID. -/
structure ImapEnv where
  connectOk : Bool
  searchHits : List Char → List Nat
  sourceOf : Nat → List Char

/-- A thrown transport error (a failed `client.connect()` propagates out
of `fetchMessageById`; nothing catches it before `main().catch`). -/
inductive ImapFailure where
  | connectionFailed
deriving DecidableEq

/-- Control flow of `fetchMessageById` (src/index.ts:255-347) over the
abstract transport: a transport failure is thrown (`Except.error`), an
empty search result returns `null` (src/index.ts:285-287), otherwise the
first UID's source is fetched and decomposed. -/
def fetchMessageById (env : ImapEnv) (messageId : List Char) :
    Except ImapFailure (Option (List Char × Option (List Char))) :=
  if env.connectOk then
    match env.searchHits (stripAngles messageId) with
    | [] => Except.ok none
    | uid :: _ => Except.ok (some (decompose (env.sourceOf uid)))
  else Except.error ImapFailure.connectionFailed

/-- What `main` does with the fetch result (src/index.ts:487-496 and
508-514): a `null` is reported as "Could not find message" and the run
stops; a thrown error instead reaches the top-level catch ("Failed:"). -/
inductive QuoteFetchOutcome where
  | proceeds : List Char × Option (List Char) → QuoteFetchOutcome
  | notFoundReported : QuoteFetchOutcome
  | fatalError : QuoteFetchOutcome
deriving DecidableEq

/-- The quote-fetch step of `main` (src/index.ts:483-496). -/
def mainQuoteFetch (env : ImapEnv) (messageId : List Char) :
    QuoteFetchOutcome :=
  match fetchMessageById env messageId with
  | Except.error _ => QuoteFetchOutcome.fatalError
  | Except.ok none => QuoteFetchOutcome.notFoundReported
  | Except.ok (some m) => QuoteFetchOutcome.proceeds m

/-- Predicate of the plain branch of the part loop (src/index.ts:310). -/
def isPlainPart (part : List Char) : Bool := containsStr ctPlain part

/-- Predicate of the HTML branch (src/index.ts:314): reached only when the
plain test failed (`else if`). -/
def isHtmlOnlyPart (part : List Char) : Bool :=
  !containsStr ctPlain part && containsStr ctHtml part

/-- Decoded content of one part (src/index.ts:311-312 and 315-316). -/
def partDecoded (part : List Char) : List Char :=
  decodeQuotedPrintable (partContent part)

/-- A multipart source with boundary `XYZ` and two `text/plain` parts,
`Hello` then `World` (LF line endings throughout). -/
def c1src : List Char :=
  ("Content-Type: multipart/alternative; boundary=XYZ\n\n--XYZ\nContent-Type: text/plain\n\nHello\n--XYZ\nContent-Type: text/plain\n\nWorld\n--XYZ--").toList

/-- A boundary-less source whose body block is `plain text only`. -/
def c6src : List Char := ("Subject: x\n\nplain text only").toList

/-- Send options with `inReplyTo` set and `references` present but empty. -/
def c2opts : SendOptions :=
  { body := [], inReplyTo := some ("<c@x>".toList), references := some [] }

/-- Send options carrying the spec's worked threading example. -/
def c2wopts : SendOptions :=
  { body := [], inReplyTo := some ("<c@x>".toList),
    references := some ("<a@x> <b@x>".toList) }

/-- Send options with a references chain but no `inReplyTo`. -/
def c9opts : SendOptions :=
  { body := [], inReplyTo := none, references := some ("<a@x> <b@x>".toList) }

/-- A healthy transport whose searches all come back empty. -/
def c8env : ImapEnv :=
  { connectOk := true, searchHits := fun _ => [], sourceOf := fun _ => [] }

/-- A transport whose connection attempt fails. -/
def c8envDown : ImapEnv :=
  { connectOk := false, searchHits := fun _ => [], sourceOf := fun _ => [] }

/-! ### Lemmas about the quoted-printable decoder -/

lemma isHexCh_not_special (c : Char) (h : isHexCh c = true) :
    c ≠ '\r' ∧ c ≠ '\n' ∧ c ≠ '=' := by
  refine ⟨?_, ?_, ?_⟩ <;> rintro rfl <;> exact absurd h (by decide)

lemma removeSoftBreaks_cons (c : Char) (t : List Char) (h : c ≠ '=') :
    removeSoftBreaks (c :: t) = c :: removeSoftBreaks t := by
  rw [removeSoftBreaks.eq_def]
  split <;> simp_all

lemma removeSoftBreaks_eq_cons (c2 : Char) (t : List Char)
    (h1 : c2 ≠ '\n') (h2 : c2 ≠ '\r') :
    removeSoftBreaks ('=' :: c2 :: t) = '=' :: removeSoftBreaks (c2 :: t) := by
  rw [removeSoftBreaks.eq_def]
  split
  next heq => injection heq with a b; injection b with hc _; exact absurd hc h1
  next heq => injection heq with a b; injection b with hc _; exact absurd hc h2
  next c r hne1 hne2 heq => injection heq with hc hr; subst hc; subst hr; rfl
  next heq => exact absurd heq (by simp)

lemma removeSoftBreaks_no_eq (s : List Char) (h : '=' ∉ s) :
    removeSoftBreaks s = s := by
  induction s with
  | nil => rfl
  | cons c t ih =>
    have hc : c ≠ '=' := by rintro rfl; exact h (List.mem_cons_self _ _)
    rw [removeSoftBreaks_cons c t hc, ih (fun m => h (List.mem_cons_of_mem _ m))]

lemma hexDecode_cons (c : Char) (t : List Char) (h : c ≠ '=') :
    hexDecode (c :: t) = c :: hexDecode t := by
  rw [hexDecode.eq_def]
  simp [h]

lemma hexDecode_escape (c2 c3 : Char) (r : List Char)
    (h2 : isHexCh c2 = true) (h3 : isHexCh c3 = true) :
    hexDecode ('=' :: c2 :: c3 :: r) =
      Char.ofNat (16 * hexVal c2 + hexVal c3) :: hexDecode r := by
  rw [hexDecode.eq_def]
  simp [hexEscapeAt, h2, h3]

lemma hexDecode_malformed (c2 : Char) (t : List Char)
    (h : hexEscapeAt (c2 :: t) = false) :
    hexDecode ('=' :: c2 :: t) = '=' :: hexDecode (c2 :: t) := by
  rw [hexDecode.eq_def]
  simp [h]

lemma hexDecode_no_eq (s : List Char) (h : '=' ∉ s) :
    hexDecode s = s := by
  induction s with
  | nil => rfl
  | cons c t ih =>
    have hc : c ≠ '=' := by rintro rfl; exact h (List.mem_cons_self _ _)
    rw [hexDecode_cons c t hc, ih (fun m => h (List.mem_cons_of_mem _ m))]

/-! ### Lemmas about the HTML utilities -/

lemma replaceChar_append (p : Char) (r a b : List Char) :
    replaceChar p r (a ++ b) = replaceChar p r a ++ replaceChar p r b := by
  induction a with
  | nil => rfl
  | cons c t ih => simp [replaceChar, ih]

lemma escapeHtml_append (a b : List Char) :
    escapeHtml (a ++ b) = escapeHtml a ++ escapeHtml b := by
  simp [escapeHtml, replaceChar_append]

lemma escapeHtml_single (c : Char) : escapeHtml [c] = escCharSpec c := by
  by_cases h1 : c = '&'
  · subst h1; decide
  by_cases h2 : c = '<'
  · subst h2; decide
  by_cases h3 : c = '>'
  · subst h3; decide
  by_cases h4 : c = '"'
  · subst h4; decide
  simp [escapeHtml, replaceChar, escCharSpec, h1, h2, h3, h4]

lemma escapeHtml_eq_spec (s : List Char) : escapeHtml s = htmlEscapeSpec s := by
  induction s with
  | nil => rfl
  | cons c t ih =>
    have : (c :: t) = [c] ++ t := rfl
    rw [this, escapeHtml_append, escapeHtml_single, ih]
    rfl

lemma replaceChar_escChar (c : Char) :
    replaceChar '\n' ("<br>\n".toList) (escCharSpec c) =
      if c = '\n' then "<br>\n".toList else escCharSpec c := by
  by_cases h0 : c = '\n'
  · subst h0; decide
  by_cases h1 : c = '&'
  · subst h1; decide
  by_cases h2 : c = '<'
  · subst h2; decide
  by_cases h3 : c = '>'
  · subst h3; decide
  by_cases h4 : c = '"'
  · subst h4; decide
  simp [escCharSpec, replaceChar, h0, h1, h2, h3, h4]

lemma textToHtml_eq_spec (s : List Char) : textToHtml s = textToHtmlSpec s := by
  unfold textToHtml
  rw [escapeHtml_eq_spec]
  induction s with
  | nil => rfl
  | cons c t ih =>
    show replaceChar '\n' ("<br>\n".toList) (escCharSpec c ++ htmlEscapeSpec t) = _
    rw [replaceChar_append, replaceChar_escChar, ih]
    rfl

lemma replaceChar_not_mem (p : Char) (r s : List Char) (h : p ∉ s) :
    replaceChar p r s = s := by
  induction s with
  | nil => rfl
  | cons c t ih =>
    have hc : c ≠ p := by rintro rfl; exact h (List.mem_cons_self _ _)
    simp [replaceChar, hc, ih (fun m => h (List.mem_cons_of_mem _ m))]

lemma escapeHtml_id (s : List Char) (h1 : '&' ∉ s) (h2 : '<' ∉ s)
    (h3 : '>' ∉ s) (h4 : '"' ∉ s) : escapeHtml s = s := by
  unfold escapeHtml
  rw [replaceChar_not_mem _ _ _ h1, replaceChar_not_mem _ _ _ h2,
    replaceChar_not_mem _ _ _ h3, replaceChar_not_mem _ _ _ h4]

lemma stripBr_cons (c : Char) (t : List Char) (h : c ≠ '<') :
    stripBr (c :: t) = c :: stripBr t := by
  rw [stripBr.eq_def]
  split <;> simp_all

lemma stripBr_replaceChar (s : List Char) (h : '<' ∉ s) :
    stripBr (replaceChar '\n' ("<br>\n".toList) s) = s := by
  induction s with
  | nil => rfl
  | cons c t ih =>
    have hc : c ≠ '<' := by rintro rfl; exact h (List.mem_cons_self _ _)
    have ih' := ih (fun m => h (List.mem_cons_of_mem _ m))
    by_cases hn : c = '\n'
    · subst hn
      show stripBr ('<' :: 'b' :: 'r' :: '>' :: '\n' ::
        replaceChar '\n' ("<br>\n".toList) t) = '\n' :: t
      rw [show stripBr ('<' :: 'b' :: 'r' :: '>' :: '\n' ::
          replaceChar '\n' ("<br>\n".toList) t) =
          stripBr ('\n' :: replaceChar '\n' ("<br>\n".toList) t) from rfl,
        stripBr_cons _ _ (by decide), ih']
    · show stripBr ((if c = '\n' then "<br>\n".toList else [c]) ++
        replaceChar '\n' ("<br>\n".toList) t) = c :: t
      rw [if_neg hn]
      show stripBr (c :: replaceChar '\n' ("<br>\n".toList) t) = c :: t
      rw [stripBr_cons _ _ hc, ih']

/-! ### Lemmas about the blank-line split and the multipart loop -/

lemma splitBlank_cons_of (c : Char) (rest : List Char) (hc : c ≠ '\n')
    (hr : ∀ x, rest.head? = some x → x ≠ '\n') :
    splitBlank (c :: rest) = consHead c (splitBlank rest) := by
  rw [splitBlank.eq_def]
  split
  next heq => injection heq with a b; exact absurd a hc
  next heq => injection heq with a b; exact absurd a hc
  next heq =>
    injection heq with a b
    cases b  -- rest = '\n'::'\n'::r ... wait pattern3 is '\r'::'\n'::'\n'
    exact absurd (hr '\n' rfl) (fun f => f rfl)
  next heq =>
    injection heq with a b
    cases b
    exact absurd (hr '\n' rfl) (fun f => f rfl)
  next c' r' h1 h2 h3 h4 heq =>
    injection heq with a b; subst a; subst b; rfl
  next heq => exact absurd heq (by simp)

lemma splitBlank_sep (b : List Char) :
    splitBlank ('\r' :: '\n' :: '\r' :: '\n' :: b) = [] :: splitBlank b := rfl

lemma splitBlank_no_newline (q : List Char) (h : '\n' ∉ q) : splitBlank q = [q] := by
  induction q with
  | nil => rfl
  | cons c t ih =>
    have hc : c ≠ '\n' := by rintro rfl; exact h (List.mem_cons_self _ _)
    have ht : '\n' ∉ t := fun m => h (List.mem_cons_of_mem _ m)
    have hr : ∀ x, t.head? = some x → x ≠ '\n' := by
      intro x hx
      rintro rfl
      exact ht (by cases t with | nil => cases hx | cons y ys => cases hx; exact List.mem_cons_self _ _)
    rw [splitBlank_cons_of c t hc hr, ih ht]
    rfl

lemma splitBlank_append_sep (a b : List Char) (h : '\n' ∉ a) :
    splitBlank (a ++ '\r' :: '\n' :: '\r' :: '\n' :: b) = a :: splitBlank b := by
  induction a with
  | nil => exact splitBlank_sep b
  | cons c a2 ih =>
    have hc : c ≠ '\n' := by rintro rfl; exact h (List.mem_cons_self _ _)
    have h2 : '\n' ∉ a2 := fun m => h (List.mem_cons_of_mem _ m)
    have hr : ∀ x, (a2 ++ '\r' :: '\n' :: '\r' :: '\n' :: b).head? = some x → x ≠ '\n' := by
      intro x hx
      cases a2 with
      | nil => simp at hx; subst hx; decide
      | cons y ys =>
        simp at hx
        subst hx
        rintro rfl
        exact h2 (List.mem_cons_self _ _)
    rw [List.cons_append, splitBlank_cons_of c _ hc hr, ih h2]
    rfl

lemma foldl_partStep (parts : List (List Char)) :
    ∀ p0 h0 : List Char,
      parts.foldl partStep (p0, h0) =
        (((parts.filter isPlainPart).map partDecoded).getLastD p0,
         ((parts.filter isHtmlOnlyPart).map partDecoded).getLastD h0) := by
  induction parts with
  | nil => intro p0 h0; rfl
  | cons a rest ih =>
    intro p0 h0
    rw [List.foldl_cons]
    by_cases hp : containsStr ctPlain a
    · have e1 : partStep (p0, h0) a = (partDecoded a, h0) := by
        simp [partStep, hp, partDecoded]
      rw [e1, ih]
      have f1 : (a :: rest).filter isPlainPart = a :: rest.filter isPlainPart := by
        simp [List.filter_cons, isPlainPart, hp]
      have f2 : (a :: rest).filter isHtmlOnlyPart = rest.filter isHtmlOnlyPart := by
        simp [List.filter_cons, isHtmlOnlyPart, hp]
      rw [f1, f2, List.map_cons, List.getLastD_cons]
    · by_cases hh : containsStr ctHtml a
      · have e1 : partStep (p0, h0) a = (p0, partDecoded a) := by
          simp [partStep, hp, hh, partDecoded]
        rw [e1, ih]
        have f1 : (a :: rest).filter isPlainPart = rest.filter isPlainPart := by
          simp [List.filter_cons, isPlainPart, hp]
        have f2 : (a :: rest).filter isHtmlOnlyPart = a :: rest.filter isHtmlOnlyPart := by
          simp [List.filter_cons, isHtmlOnlyPart, hp, hh]
        rw [f1, f2, List.map_cons, List.getLastD_cons]
      · have e1 : partStep (p0, h0) a = (p0, h0) := by
          simp [partStep, hp, hh]
        rw [e1, ih]
        have f1 : (a :: rest).filter isPlainPart = rest.filter isPlainPart := by
          simp [List.filter_cons, isPlainPart, hp]
        have f2 : (a :: rest).filter isHtmlOnlyPart = rest.filter isHtmlOnlyPart := by
          simp [List.filter_cons, isHtmlOnlyPart, hp, hh]
        rw [f1, f2]

lemma intercalate_pair (s a b : List Char) :
    List.intercalate s [a, b] = a ++ s ++ b := by
  simp [List.intercalate, List.intersperse]

lemma tagAt_iff (l : List Char) :
    tagAt l = true ↔
      ∃ c v w, l = '<' :: c :: (v ++ '>' :: w) ∧ isAsciiLetter c = true := by
  constructor
  · intro h
    rw [tagAt.eq_def] at h
    split at h
    next c2 rest2 =>
      obtain ⟨hl, hc⟩ := Bool.and_eq_true_iff.mp h
      obtain ⟨v, w, rfl⟩ := List.append_of_mem (List.elem_iff.mp hc)
      exact ⟨c2, v, w, rfl, hl⟩
    next => cases h
  · rintro ⟨c, v, w, rfl, hc⟩
    show (isAsciiLetter c && (v ++ '>' :: w).contains '>') = true
    rw [Bool.and_eq_true_iff]
    exact ⟨hc, List.elem_iff.mpr (by simp)⟩

lemma isHtml_iff (s : List Char) :
    isHtml s = true ↔
      ∃ u c v w, s = u ++ '<' :: c :: (v ++ '>' :: w) ∧ isAsciiLetter c = true := by
  induction s with
  | nil => simp [isHtml]
  | cons a t ih =>
    rw [isHtml, Bool.or_eq_true]
    constructor
    · rintro (h | h)
      · obtain ⟨c, v, w, he, hc⟩ := (tagAt_iff _).mp h
        exact ⟨[], c, v, w, he, hc⟩
      · obtain ⟨u, c, v, w, he, hc⟩ := ih.mp h
        exact ⟨a :: u, c, v, w, by rw [he]; rfl, hc⟩
    · rintro ⟨u, c, v, w, he, hc⟩
      cases u with
      | nil =>
        left
        injection he with h1 h2
        subst h1; subst h2
        exact (tagAt_iff _).mpr ⟨c, v, w, rfl, hc⟩
      | cons y u2 =>
        right
        injection he with h1 h2
        exact ih.mpr ⟨u2, c, v, w, h2, hc⟩

/-- Shared unfolding of `decompose` in the boundary-less branch. -/
lemma decompose_of_no_boundary (s : List Char)
    (h : findBoundary (headersOf s) = none) :
    decompose s = (trimJs (decodeQuotedPrintable (rawBodyOf s)), none) := by
  simp [decompose, h]

/-! ### Claim theorems -/

/-- Claim C1 (amended): on a multipart source the decomposer splits the
body on the literal `--boundary` token, and the plain body comes from the
LAST part declaring `Content-Type: text/plain`, the HTML body from the
LAST part declaring `Content-Type: text/html` (and not `text/plain`,
because of the `else if`); a later part of the same declared type replaces
the earlier one — still no merging. -/
theorem multipart_last_part_kept (s b : List Char)
    (h : findBoundary (headersOf s) = some b) :
    decompose s =
      (trimJs ((((splitOnStr ('-' :: '-' :: b) (rawBodyOf s)).filter
          isPlainPart).map partDecoded).getLastD []),
       if (trimJs ((((splitOnStr ('-' :: '-' :: b) (rawBodyOf s)).filter
            isHtmlOnlyPart).map partDecoded).getLastD [])).isEmpty
       then none
       else some (trimJs ((((splitOnStr ('-' :: '-' :: b) (rawBodyOf s)).filter
            isHtmlOnlyPart).map partDecoded).getLastD []))) := by
  simp only [decompose, h]
  rw [foldl_partStep]

/-- Witness for C1: on the concrete two-`text/plain`-part source the
decomposer keeps the last part, `World`. -/
theorem multipart_last_part_kept_witness :
    decompose c1src = ("World".toList, none) := by
  have h := multipart_last_part_kept c1src ("XYZ".toList) (by decide)
  rw [h]
  decide

/-- Counterexample to C1 as stated: with two `text/plain` parts `Hello`
then `World`, the decomposer does NOT keep the first (`Hello`); the
second replaces it. -/
theorem multipart_first_part_kept_false :
    (decompose c1src).1 = "World".toList ∧
    (decompose c1src).1 ≠ "Hello".toList := by
  decide

/-- Claim C2 (amended): when `inReplyTo` is present and nonempty, the
outgoing References header is `references ++ " " ++ inReplyTo` when
`references` is present and nonempty, and `inReplyTo` alone when
`references` is absent — or present but empty, which JavaScript
truthiness treats like absence. -/
theorem references_header_rule (o : SendOptions) (irt : List Char)
    (h1 : o.inReplyTo = some irt) (h2 : irt ≠ []) :
    (mailOptionsOf o).inReplyTo = some irt ∧
    (∀ r, o.references = some r → r ≠ [] →
      (mailOptionsOf o).references = some (r ++ ' ' :: irt)) ∧
    (o.references = none → (mailOptionsOf o).references = some irt) ∧
    (o.references = some [] → (mailOptionsOf o).references = some irt) := by
  have ht : truthy (some irt) = true := by
    cases irt with
    | nil => exact absurd rfl h2
    | cons c t => rfl
  refine ⟨by simp [mailOptionsOf, h1, ht], ?_, ?_, ?_⟩
  · intro r hr hrne
    have htr : truthy (some r) = true := by
      cases r with
      | nil => exact absurd rfl hrne
      | cons c t => rfl
    simp [mailOptionsOf, h1, hr, ht, htr]
  · intro hr
    simp [mailOptionsOf, h1, hr, ht, truthy, h2]
  · intro hr
    simp [mailOptionsOf, h1, hr, ht, truthy, h2]

/-- Witness for C2: the spec's worked example,
`<a@x> <b@x>` + `<c@x>` gives `<a@x> <b@x> <c@x>`. -/
theorem references_header_rule_witness :
    (mailOptionsOf c2wopts).references = some ("<a@x> <b@x> <c@x>".toList) := by
  have h := (references_header_rule c2wopts ("<c@x>".toList) rfl
    (by decide)).2.1 ("<a@x> <b@x>".toList) rfl (by decide)
  rw [h]
  decide

/-- Counterexample to C2 as stated: with `references` present but empty
and `inReplyTo = "<c@x>"`, the outgoing References is `"<c@x>"`, not the
claimed concatenation `" <c@x>"`. -/
theorem references_header_concat_false :
    (mailOptionsOf c2opts).references = some ("<c@x>".toList) ∧
    (mailOptionsOf c2opts).references ≠ some (' ' :: "<c@x>".toList) := by
  decide

/-- Claim C3: the quoted-printable decoding contract — a soft line break
(`=` before CRLF or LF) is removed with no replacement, a well-formed
`=XX` hex escape becomes the single character of that code, a malformed
`=XX` token passes through unmodified, and a string without `=` decodes
to itself. -/
theorem decodeQuotedPrintable_contract :
    (∀ rest : List Char,
      decodeQuotedPrintable ('=' :: '\r' :: '\n' :: rest) =
        decodeQuotedPrintable rest) ∧
    (∀ rest : List Char,
      decodeQuotedPrintable ('=' :: '\n' :: rest) =
        decodeQuotedPrintable rest) ∧
    (∀ (h1 h2 : Char) (rest : List Char),
      isHexCh h1 = true → isHexCh h2 = true →
      decodeQuotedPrintable ('=' :: h1 :: h2 :: rest) =
        Char.ofNat (16 * hexVal h1 + hexVal h2) :: decodeQuotedPrintable rest) ∧
    (∀ (c1 c2 : Char) (rest : List Char),
      ¬(isHexCh c1 = true ∧ isHexCh c2 = true) →
      c1 ≠ '\r' → c1 ≠ '\n' → c1 ≠ '=' → c2 ≠ '=' →
      decodeQuotedPrintable ('=' :: c1 :: c2 :: rest) =
        '=' :: c1 :: c2 :: decodeQuotedPrintable rest) ∧
    (∀ s : List Char, '=' ∉ s → decodeQuotedPrintable s = s) := by
  refine ⟨fun rest => rfl, fun rest => rfl, ?_, ?_, ?_⟩
  · intro h1 h2 rest hh1 hh2
    obtain ⟨hr1, hn1, he1⟩ := isHexCh_not_special h1 hh1
    obtain ⟨hr2, hn2, he2⟩ := isHexCh_not_special h2 hh2
    unfold decodeQuotedPrintable
    rw [removeSoftBreaks_eq_cons h1 (h2 :: rest) hn1 hr1,
      removeSoftBreaks_cons h1 _ he1, removeSoftBreaks_cons h2 _ he2,
      hexDecode_escape h1 h2 _ hh1 hh2]
  · intro c1 c2 rest hnot hr1 hn1 he1 he2
    unfold decodeQuotedPrintable
    rw [removeSoftBreaks_eq_cons c1 (c2 :: rest) hn1 hr1,
      removeSoftBreaks_cons c1 _ he1, removeSoftBreaks_cons c2 _ he2]
    have hma : hexEscapeAt (c1 :: c2 :: removeSoftBreaks rest) = false := by
      show (isHexCh c1 && isHexCh c2) = false
      cases hx1 : isHexCh c1 <;> cases hx2 : isHexCh c2 <;> simp_all
    rw [hexDecode_malformed c1 _ hma, hexDecode_cons c1 _ he1,
      hexDecode_cons c2 _ he2]
  · intro s h
    unfold decodeQuotedPrintable
    rw [removeSoftBreaks_no_eq s h, hexDecode_no_eq s h]

/-- Witness for C3: decoding the escape `=C3` yields the single character
of code 195. -/
theorem decodeQuotedPrintable_contract_witness :
    decodeQuotedPrintable ('=' :: 'C' :: '3' :: []) = [Char.ofNat 195] := by
  have h := decodeQuotedPrintable_contract.2.2.1 'C' '3' [] (by decide) (by decide)
  rw [h]
  decide

/-- Claim C4 (amended): for input containing none of the four escaped
metacharacters `&`, `<`, `>`, `"` (hence in particular no markup-like
substring), stripping the inserted `<br>` tags from the transformation
output reproduces the input exactly. -/
theorem textToHtml_roundTrip (s : List Char)
    (h1 : '&' ∉ s) (h2 : '<' ∉ s) (h3 : '>' ∉ s) (h4 : '"' ∉ s) :
    stripBr (textToHtml s) = s := by
  unfold textToHtml
  rw [escapeHtml_id s h1 h2 h3 h4]
  exact stripBr_replaceChar s h2

/-- Witness for C4: a two-line plain text round-trips. -/
theorem textToHtml_roundTrip_witness :
    stripBr (textToHtml ("hello\nworld".toList)) = "hello\nworld".toList :=
  textToHtml_roundTrip _ (by decide) (by decide) (by decide) (by decide)

/-- Counterexample to C4 as stated: `"&"` contains no markup-like
substring, yet stripping the inserted tags from its transformation gives
`"&amp;"`, not `"&"` — escaping is not undone by tag removal. -/
theorem textToHtml_roundTrip_false :
    isHtml ['&'] = false ∧ stripBr (textToHtml ['&']) ≠ ['&'] := by
  decide

/-- Claim C5: the plain-text-to-HTML conversion escapes exactly the
metacharacters listed by the spec (`&`, `<`, `>`, `"`), ampersand
first so no character is double-escaped, then replaces every line break
with the line-break tag followed by the original line ending: both passes
together act character-by-character. -/
theorem escape_charwise (s : List Char) :
    escapeHtml s = htmlEscapeSpec s ∧ textToHtml s = textToHtmlSpec s :=
  ⟨escapeHtml_eq_spec s, textToHtml_eq_spec s⟩

/-- Claim C6: without a boundary parameter in the headers, the whole body
block is the plain body after quoted-printable decoding, and the HTML
body is absent. -/
theorem single_part_fallback (s : List Char)
    (h : findBoundary (headersOf s) = none) :
    decompose s = (trimJs (decodeQuotedPrintable (rawBodyOf s)), none) :=
  decompose_of_no_boundary s h

/-- Witness for C6: the spec's example, body `plain text only` with no
boundary header. -/
theorem single_part_fallback_witness :
    decompose c6src = ("plain text only".toList, none) := by
  have h := single_part_fallback c6src (by decide)
  rw [h]
  decide

/-- Claim C7: the send path treats the body as HTML exactly when it
contains a substring matching `<letter ... >`; HTML input passes through
unchanged, plain text is escaped, line-break converted and wrapped. -/
theorem isHtml_detection (body : List Char) :
    (isHtml body = true ↔
      ∃ u c v w, body = u ++ '<' :: c :: (v ++ '>' :: w) ∧
        isAsciiLetter c = true) ∧
    (isHtml body = true → bodyHtmlOf body = body) ∧
    (isHtml body = false →
      bodyHtmlOf body = "<div>".toList ++ textToHtml body ++ "</div>".toList) ∧
    bodyHtmlOf ("<b>bold</b>".toList) = "<b>bold</b>".toList ∧
    bodyHtmlOf ("plain & simple".toList) =
      "<div>plain &amp; simple</div>".toList := by
  refine ⟨isHtml_iff body, ?_, ?_, by decide, by decide⟩
  · intro h
    simp [bodyHtmlOf, h]
  · intro h
    simp [bodyHtmlOf, h]

/-- Witness for C7: `<b>bold</b>` is detected as HTML and passed through
unescaped. -/
theorem isHtml_detection_witness :
    bodyHtmlOf ("<b>bold</b>".toList) = "<b>bold</b>".toList :=
  (isHtml_detection ("<b>bold</b>".toList)).2.1 (by decide)

/-- Claim C8: an inbox search with zero matches makes the fetch return a
distinguishable `null` (not a throw), which the caller reports as a
"could not find message" error; a transport failure instead propagates
as a thrown error, a distinct outcome. -/
theorem notFound_distinct_from_transport (env : ImapEnv) (mid : List Char)
    (hc : env.connectOk = true)
    (hs : env.searchHits (stripAngles mid) = []) :
    fetchMessageById env mid = Except.ok none ∧
    mainQuoteFetch env mid = QuoteFetchOutcome.notFoundReported ∧
    (∀ env2 : ImapEnv, env2.connectOk = false →
      mainQuoteFetch env2 mid = QuoteFetchOutcome.fatalError) ∧
    (QuoteFetchOutcome.notFoundReported : QuoteFetchOutcome) ≠
      QuoteFetchOutcome.fatalError := by
  have hf : fetchMessageById env mid = Except.ok none := by
    simp [fetchMessageById, hc, hs]
  refine ⟨hf, by simp [mainQuoteFetch, hf], ?_, by decide⟩
  intro env2 h2
  simp [mainQuoteFetch, fetchMessageById, h2]

/-- Witness for C8: with an empty inbox the outcome is the reported
not-found; with a dead transport it is the fatal error. -/
theorem notFound_distinct_witness :
    mainQuoteFetch c8env ("<missing@x>".toList) =
      QuoteFetchOutcome.notFoundReported ∧
    mainQuoteFetch c8envDown ("<missing@x>".toList) =
      QuoteFetchOutcome.fatalError := by
  have h := notFound_distinct_from_transport c8env ("<missing@x>".toList) rfl rfl
  exact ⟨h.2.1, h.2.2.1 c8envDown rfl⟩

/-- Claim C9: without `inReplyTo` the outgoing message carries neither an
In-Reply-To nor a References header, even when `references` was
supplied — it is silently dropped. -/
theorem no_threading_without_inReplyTo (o : SendOptions)
    (h : o.inReplyTo = none) :
    (mailOptionsOf o).inReplyTo = none ∧
    (mailOptionsOf o).references = none := by
  simp [mailOptionsOf, truthy, h]

/-- Witness for C9: a supplied references chain without `inReplyTo` sets
no threading header. -/
theorem no_threading_witness :
    (mailOptionsOf c9opts).inReplyTo = none ∧
    (mailOptionsOf c9opts).references = none :=
  no_threading_without_inReplyTo c9opts rfl

/-- Claim C10: the decomposer is not byte-for-byte — both the
header/body split and a part's header/content split cut at blank-line
boundaries and rejoin with the fixed `LF LF`, so a `CRLF CRLF` inside the
body reappears as `LF LF` in the extracted content (and the two byte
sequences differ). -/
theorem blankline_normalization (hdr p q : List Char)
    (h1 : '\n' ∉ hdr) (h2 : '\n' ∉ p) (h3 : '\n' ∉ q)
    (h4 : findBoundary hdr = none) :
    rawBodyOf (hdr ++ '\r' :: '\n' :: '\r' :: '\n' ::
        (p ++ '\r' :: '\n' :: '\r' :: '\n' :: q)) =
      p ++ '\n' :: '\n' :: q ∧
    partContent (hdr ++ '\r' :: '\n' :: '\r' :: '\n' ::
        (p ++ '\r' :: '\n' :: '\r' :: '\n' :: q)) =
      p ++ '\n' :: '\n' :: q ∧
    decompose (hdr ++ '\r' :: '\n' :: '\r' :: '\n' ::
        (p ++ '\r' :: '\n' :: '\r' :: '\n' :: q)) =
      (trimJs (decodeQuotedPrintable (p ++ '\n' :: '\n' :: q)), none) ∧
    p ++ '\r' :: '\n' :: '\r' :: '\n' :: q ≠ p ++ '\n' :: '\n' :: q := by
  have hsplit : splitBlank (hdr ++ '\r' :: '\n' :: '\r' :: '\n' ::
      (p ++ '\r' :: '\n' :: '\r' :: '\n' :: q)) = [hdr, p, q] := by
    rw [splitBlank_append_sep _ _ h1, splitBlank_append_sep _ _ h2,
      splitBlank_no_newline q h3]
  have hraw : rawBodyOf (hdr ++ '\r' :: '\n' :: '\r' :: '\n' ::
      (p ++ '\r' :: '\n' :: '\r' :: '\n' :: q)) = p ++ '\n' :: '\n' :: q := by
    rw [rawBodyOf, hsplit]
    rw [show ([hdr, p, q].drop 1) = [p, q] from rfl, intercalate_pair]
    simp
  have hhdr : headersOf (hdr ++ '\r' :: '\n' :: '\r' :: '\n' ::
      (p ++ '\r' :: '\n' :: '\r' :: '\n' :: q)) = hdr := by
    rw [headersOf, hsplit]
    rfl
  refine ⟨hraw, ?_, ?_, ?_⟩
  · rw [partContent, hsplit]
    rw [show ([hdr, p, q].drop 1) = [p, q] from rfl, intercalate_pair]
    simp
  · rw [decompose_of_no_boundary _ (by rw [hhdr]; exact h4), hraw]
  · intro he
    have hl := congrArg List.length he
    simp at hl
    omega

/-- Witness for C10: header `H: v`, body pieces `a` and `b`; the result
body is `a\n\nb` even though the source had CRLF blank lines. -/
theorem blankline_normalization_witness :
    decompose ("H: v".toList ++ '\r' :: '\n' :: '\r' :: '\n' ::
        ("a".toList ++ '\r' :: '\n' :: '\r' :: '\n' :: "b".toList)) =
      ("a\n\nb".toList, none) := by
  have h := blankline_normalization ("H: v".toList) ("a".toList) ("b".toList)
    (by decide) (by decide) (by decide) (by decide)
  rw [h.2.2.1]
  decide

end ClaudeMailer
